import Mathlib

/-!
Verification of the interactive technology-map canvas widget of the
HandLaunch website (`website/script.js`, function `initTechCanvas`).

The widget is embedded shallowly: coordinates and the zoom scale are
modeled as exact rationals (the JavaScript source computes with IEEE
doubles; every property below is an exact identity, hence holds a
fortiori "within floating-point tolerance"), the module-level mutable
variables (`scale`, `offsetX`, `offsetY`, `isDragging`, `dragStartX`,
`dragStartY`, `hoveredNode`, `selectedNode`, details-panel DOM state)
become fields of an explicit state record, and each event handler
becomes a pure state-transition function translated line by line from
the source.
-/

namespace TechCanvas

/-- A technology node of the graph model. The source stores `description`
as one newline-separated string of bullet lines; it is modeled here as
the list of those lines, and the renderer newline replacement (each
newline becomes a `<br>` tag) is
modeled as joining the lines with `"<br>"`. -/
structure TechNode where
  id : String
  name : String
  category : String
  x : ℚ
  y : ℚ
  color : String
  description : List String
  connections : List String
deriving DecidableEq, Repr

/-- The `techNodes` array of `initTechCanvas`, in declaration order. -/
def techNodes : List TechNode :=
  [ { id := "python", name := "Python", category := "language",
      x := 600, y := 450, color := "#3776ab",
      description :=
        ["• Core runtime environment for the entire application",
         "• Orchestrates the complete gesture recognition pipeline",
         "• Ensures cross-platform compatibility across macOS, Windows, and Linux",
         "• Provides the foundation that binds all components together",
         "• Enables rapid development and testing of gesture detection algorithms"],
      connections := ["opencv", "mediapipe", "pyqt5", "numpy", "tensorflow",
                      "scikit-learn", "pillow", "pyinstaller", "psutil"] },
    { id := "opencv", name := "OpenCV", category := "computer-vision",
      x := 200, y := 200, color := "#5c3ee8",
      description :=
        ["• Real-time camera feed capture and processing",
         "• Image preprocessing and enhancement filters",
         "• Noise reduction and lighting condition adaptation",
         "• Frame rate optimization for smooth performance",
         "• Cross-platform camera interface management"],
      connections := ["python", "mediapipe", "numpy"] },
    { id := "mediapipe", name := "MediaPipe", category := "ml",
      x := 400, y := 150, color := "#4285f4",
      description :=
        ["• Hand landmark detection with 21 key points per hand",
         "• Real-time hand pose estimation and tracking",
         "• Converts camera frames to structured hand data",
         "• Enables precise gesture classification",
         "• Optimized for mobile and desktop performance"],
      connections := ["python", "opencv", "tensorflow"] },
    { id := "tensorflow", name := "TensorFlow", category := "ml",
      x := 350, y := 650, color := "#ff6f00",
      description :=
        ["• Machine learning engine for gesture classification",
         "• Processes hand landmarks to identify gestures",
         "• Distinguishes between fist, open palm, peace sign, etc.",
         "• Runs entirely on-device for privacy and speed",
         "• Supports both training and inference modes"],
      connections := ["python", "mediapipe", "numpy"] },
    { id := "numpy", name := "NumPy", category := "data",
      x := 150, y := 450, color := "#4dabcf",
      description :=
        ["• Mathematical backbone for all computations",
         "• Handles hand landmark coordinate processing",
         "• Calculates gesture similarity scores and metrics",
         "• Efficient array operations for real-time processing",
         "• Optimized for 30+ FPS performance requirements"],
      connections := ["python", "opencv", "tensorflow", "scikit-learn"] },
    { id := "scikit-learn", name := "Scikit-learn", category := "ml",
      x := 450, y := 750, color := "#f7931e",
      description :=
        ["• Custom gesture training and learning system",
         "• Machine learning algorithms for personalized models",
         "• Adapts to individual hand shape variations",
         "• Creates user-specific gesture recognition patterns",
         "• Enables continuous learning and improvement"],
      connections := ["python", "numpy", "tensorflow"] },
    { id := "pyqt5", name := "PyQt5", category := "gui",
      x := 950, y := 300, color := "#41cd52",
      description :=
        ["• Desktop application user interface",
         "• Gesture mapping configuration panel",
         "• Real-time camera preview and monitoring",
         "• Custom gesture training interface",
         "• Settings and preferences management"],
      connections := ["python", "pillow"] },
    { id := "pillow", name := "Pillow", category := "image",
      x := 800, y := 550, color := "#f7b731",
      description :=
        ["• Image processing and manipulation toolkit",
         "• Icon and visual asset management",
         "• Gesture training data image processing",
         "• Cross-platform image format compatibility",
         "• UI visual enhancement and optimization"],
      connections := ["python", "opencv", "pyqt5"] },
    { id := "pyinstaller", name := "PyInstaller", category := "build",
      x := 1000, y := 550, color := "#9b59b6",
      description :=
        ["• Application packaging and deployment",
         "• Creates standalone executables for all platforms",
         "• Bundles all dependencies and resources",
         "• Generates macOS .dmg, Windows .exe, Linux .AppImage",
         "• Enables easy installation without Python setup"],
      connections := ["python", "pyqt5"] },
    { id := "psutil", name := "psutil", category := "system",
      x := 900, y := 700, color := "#e74c3c",
      description :=
        ["• System integration and process management",
         "• Application launching and process control",
         "• System resource monitoring and optimization",
         "• Cross-platform OS interaction",
         "• Bridge between gestures and app execution"],
      connections := ["python", "pyqt5"] } ]

/-- Lower zoom bound, from `Math.max(0.3, ...)` in `zoom`. -/
def minScale : ℚ := 0.3

/-- Upper zoom bound, from `Math.min(3, ...)` in `zoom`. -/
def maxScale : ℚ := 3

/-- Initial and reset scale: `let scale = 0.6` and `resetView`. -/
def defaultScale : ℚ := 0.6

/-- The viewport transform state: `scale`, `offsetX`, `offsetY`. -/
structure Viewport where
  scale : ℚ
  offsetX : ℚ
  offsetY : ℚ
deriving DecidableEq, Repr

/-- World-to-screen transform applied by `draw` via
`ctx.translate(offsetX, offsetY); ctx.scale(scale, scale)`:
`screen = world * scale + offset`, componentwise. -/
def worldToScreen (v : Viewport) (p : ℚ × ℚ) : ℚ × ℚ :=
  (p.1 * v.scale + v.offsetX, p.2 * v.scale + v.offsetY)

/-- Screen-to-world conversion used by `handleMouseMove` and `handleClick`:
`x = (clientX - rect.left - offsetX) / scale` (and likewise for `y`),
where the argument here is already canvas-relative
(`clientX - rect.left`, `clientY - rect.top`). -/
def screenToWorld (v : Viewport) (p : ℚ × ℚ) : ℚ × ℚ :=
  ((p.1 - v.offsetX) / v.scale, (p.2 - v.offsetY) / v.scale)

/-- The clamp `Math.max(0.3, Math.min(3, scale * factor))` from `zoom`. -/
def clampScale (s : ℚ) : ℚ :=
  max minScale (min maxScale s)

/-- The `zoom(factor, centerX, centerY)` function: clamps the new scale
and recomputes the offset about the pivot `(cx, cy)`. -/
def zoom (v : Viewport) (factor cx cy : ℚ) : Viewport :=
  let newScale := clampScale (v.scale * factor)
  let scaleChange := newScale / v.scale
  { scale := newScale
    offsetX := cx - (cx - v.offsetX) * scaleChange
    offsetY := cy - (cy - v.offsetY) * scaleChange }

/-- A sequence of `zoom` calls, each given as (factor, pivot x, pivot y). -/
def applyZooms (v : Viewport) (calls : List (ℚ × ℚ × ℚ)) : Viewport :=
  calls.foldl (fun w c => zoom w c.1 c.2.1 c.2.2) v

/-- Node rectangle width: `const w = 140` in `getNodeAt` and `draw`. -/
def nodeW : ℚ := 140

/-- Node rectangle height: `const h = 56` in `getNodeAt` and `draw`. -/
def nodeH : ℚ := 56

/-- The containment test of `getNodeAt`:
`x >= left && x <= left + w && y >= top && y <= top + h` with
`left = node.x - w/2`, `top = node.y - h/2`. All four comparisons are
inclusive. -/
def inRect (n : TechNode) (x y : ℚ) : Prop :=
  n.x - nodeW / 2 ≤ x ∧ x ≤ n.x - nodeW / 2 + nodeW ∧
    n.y - nodeH / 2 ≤ y ∧ y ≤ n.y - nodeH / 2 + nodeH

instance (n : TechNode) (x y : ℚ) : Decidable (inRect n x y) :=
  inferInstanceAs (Decidable (_ ≤ _ ∧ _ ≤ _ ∧ _ ≤ _ ∧ _ ≤ _))

/-- Strict interior of a node rectangle (all four comparisons strict);
used only to state claims about points strictly inside a rectangle. -/
def strictlyInRect (n : TechNode) (x y : ℚ) : Prop :=
  n.x - nodeW / 2 < x ∧ x < n.x - nodeW / 2 + nodeW ∧
    n.y - nodeH / 2 < y ∧ y < n.y - nodeH / 2 + nodeH

instance (n : TechNode) (x y : ℚ) : Decidable (strictlyInRect n x y) :=
  inferInstanceAs (Decidable (_ < _ ∧ _ < _ ∧ _ < _ ∧ _ < _))

/-- A point lying exactly on the boundary of the rectangle of a node:
`x = node.x ± 70` with `y` within bounds, or `y = node.y ± 28` with `x`
within bounds. -/
def onRectEdge (n : TechNode) (x y : ℚ) : Prop :=
  ((x = n.x - nodeW / 2 ∨ x = n.x + nodeW / 2) ∧
      n.y - nodeH / 2 ≤ y ∧ y ≤ n.y + nodeH / 2) ∨
    ((y = n.y - nodeH / 2 ∨ y = n.y + nodeH / 2) ∧
      n.x - nodeW / 2 ≤ x ∧ x ≤ n.x + nodeW / 2)

instance (n : TechNode) (x y : ℚ) : Decidable (onRectEdge n x y) :=
  inferInstanceAs (Decidable (_ ∨ _))

/-- The hit tester `getNodeAt(x, y)`: iterates the node list in
declaration order and returns the first node whose rectangle contains
the world point, or `none` (`null`) when no rectangle does. -/
def getNodeAt (nodes : List TechNode) (x y : ℚ) : Option TechNode :=
  match nodes with
  | [] => none
  | n :: rest => if inRect n x y then some n else getNodeAt rest x y

/-- The renderer call
`detailsDesc.innerHTML = selectedNode.description.replace(newline, br-tag)`,
on the line-list model of `description`. -/
def renderDesc (lines : List String) : String :=
  String.intercalate "<br>" lines

/-- The mutable state of the widget: the module-level variables of
`initTechCanvas` together with the details-panel DOM state it drives
(`hidden` class absent/present, `.node-title` text, `.node-desc` HTML). -/
structure WidgetState where
  view : Viewport
  isDragging : Bool
  dragStartX : ℚ
  dragStartY : ℚ
  hoveredNode : Option TechNode
  selectedNode : Option TechNode
  detailsVisible : Bool
  detailsTitle : String
  detailsDesc : String
deriving DecidableEq, Repr

/-- The `handleClick(e)` handler. Its argument `(sx, sy)` is the
canvas-relative pointer position (`clientX - rect.left`,
`clientY - rect.top`); the handler converts it to world space, hit-tests,
and on a hit toggles the selection and updates the details panel. On a
miss (or mid-drag) the state is returned unchanged. -/
def handleClick (nodes : List TechNode) (s : WidgetState) (sx sy : ℚ) :
    WidgetState :=
  if s.isDragging then s
  else
    let x := (sx - s.view.offsetX) / s.view.scale
    let y := (sy - s.view.offsetY) / s.view.scale
    match getNodeAt nodes x y with
    | none => s
    | some node =>
      if s.selectedNode = some node then
        { s with selectedNode := none, detailsVisible := false }
      else
        { s with selectedNode := some node
                 detailsVisible := true
                 detailsTitle := node.name
                 detailsDesc := renderDesc node.description }

/-- The `resetView()` handler: restores `scale = 0.6`,
`offsetX = offsetY = 0`, clears `selectedNode`, and redraws. It touches
no other state (in particular not the details panel and not
`isDragging`). -/
def resetView (s : WidgetState) : WidgetState :=
  { s with view := { scale := defaultScale, offsetX := 0, offsetY := 0 }
           selectedNode := none }

/-- One connection line issued by the renderer: endpoint centers plus the
ids of the two nodes; `drawRectangularConnection` draws the straight
segment from `(x1, y1)` (source center) to `(x2, y2)` (target center)
and the arrowhead at `(x2, y2)`. -/
structure Segment where
  sourceId : String
  targetId : String
  x1 : ℚ
  y1 : ℚ
  x2 : ℚ
  y2 : ℚ
deriving DecidableEq, Repr

/-- The deduplication key `[node.id, targetNode.id].sort().join(dash)`,
modeled as the sorted pair of ids. -/
def connKey (a b : String) : String × String :=
  if a ≤ b then (a, b) else (b, a)

/-- The deduplication key of an issued segment. -/
def segKey (s : Segment) : String × String :=
  connKey s.sourceId s.targetId

/-- `drawRectangularConnection(sourceNode, targetNode)`: issues the
segment (line plus arrowhead at the target center) only when the centers
are more than 50 world units apart; `distance > 50` is stated squared to
stay in exact arithmetic. -/
def rectConnSegments (s t : TechNode) : List Segment :=
  let dx := t.x - s.x
  let dy := t.y - s.y
  if 50 * 50 < dx * dx + dy * dy then
    [{ sourceId := s.id, targetId := t.id, x1 := s.x, y1 := s.y,
       x2 := t.x, y2 := t.y }]
  else []

/-- The inner loop of the connection pass of `draw`: for one `node`,
walks its `connections` list, resolves each id against `allNodes`
(silently skipping dangling ids), and draws each not-yet-seen pair,
threading the `drawnConnections` set (modeled as a list of keys). -/
def drawNodeConns (allNodes : List TechNode) (node : TechNode)
    (conns : List String) (seen : List (String × String)) :
    List Segment × List (String × String) :=
  match conns with
  | [] => ([], seen)
  | c :: rest =>
    match allNodes.find? (fun n => n.id == c) with
    | none => drawNodeConns allNodes node rest seen
    | some target =>
      let key := connKey node.id target.id
      if key ∈ seen then drawNodeConns allNodes node rest seen
      else
        let r := drawNodeConns allNodes node rest (key :: seen)
        (rectConnSegments node target ++ r.1, r.2)

/-- The outer loop of the connection pass of `draw`: iterates the node
list in declaration order, threading the seen-keys set. -/
def drawAllConns (allNodes : List TechNode) (nodes : List TechNode)
    (seen : List (String × String)) :
    List Segment × List (String × String) :=
  match nodes with
  | [] => ([], seen)
  | n :: rest =>
    let r1 := drawNodeConns allNodes n n.connections seen
    let r2 := drawAllConns allNodes rest r1.2
    (r1.1 ++ r2.1, r2.2)

/-- The full connection pass of one `draw` call: starts with an empty
`drawnConnections` set and returns the segments issued, in order. -/
def connectionSegments (nodes : List TechNode) : List Segment :=
  (drawAllConns nodes nodes []).1

/-- Concrete scenario node A at `(0, 0)`, connected to B. -/
def scenarioNodeA : TechNode :=
  { id := "A", name := "A", category := "", x := 0, y := 0, color := "",
    description := [], connections := ["B"] }

/-- Concrete scenario node B at `(200, 0)`, connected back to A. -/
def scenarioNodeB : TechNode :=
  { id := "B", name := "B", category := "", x := 200, y := 0, color := "",
    description := [], connections := ["A"] }

/-- A sample widget state used to instantiate the theorems below: the
default viewport (`scale = 0.6`, zero offset), no drag in progress,
nothing hovered or selected, details panel hidden. -/
def sampleState : WidgetState :=
  { view := { scale := 0.6, offsetX := 0, offsetY := 0 }
    isDragging := false
    dragStartX := 0
    dragStartY := 0
    hoveredNode := none
    selectedNode := none
    detailsVisible := false
    detailsTitle := ""
    detailsDesc := "" }

/-- A sample widget state with node A selected and the details panel
revealed, as produced by clicking node A. -/
def selectedState : WidgetState :=
  { sampleState with
      selectedNode := some scenarioNodeA
      detailsVisible := true
      detailsTitle := "A" }

theorem clampScale_mem (s : ℚ) :
    minScale ≤ clampScale s ∧ clampScale s ≤ maxScale := by
  constructor
  · exact le_max_left _ _
  · exact max_le (by norm_num [minScale, maxScale]) (min_le_left _ _)

theorem scale_pos_of_minScale_le {s : ℚ} (h : minScale ≤ s) : 0 < s :=
  lt_of_lt_of_le (by norm_num [minScale]) h

/-- C1: for every viewport whose scale lies within `[minScale, maxScale]`
and any offset, `screenToWorld` inverts `worldToScreen` exactly:
`screenToWorld (worldToScreen p) = p` for every point `p`. -/
theorem screenToWorld_worldToScreen (v : Viewport) (p : ℚ × ℚ)
    (hlo : minScale ≤ v.scale) (_hhi : v.scale ≤ maxScale) :
    screenToWorld v (worldToScreen v p) = p := by
  have hs : v.scale ≠ 0 := ne_of_gt (scale_pos_of_minScale_le hlo)
  simp only [screenToWorld, worldToScreen]
  rw [Prod.ext_iff]
  constructor <;> · simp only []; field_simp

theorem screenToWorld_worldToScreen_witness :
    minScale ≤ (Viewport.mk 0.6 5 (-7)).scale ∧
      (Viewport.mk 0.6 5 (-7)).scale ≤ maxScale ∧
      screenToWorld (Viewport.mk 0.6 5 (-7))
        (worldToScreen (Viewport.mk 0.6 5 (-7)) (100, 200)) = (100, 200) :=
  ⟨by norm_num [minScale], by norm_num [maxScale],
    screenToWorld_worldToScreen _ _ (by norm_num [minScale])
      (by norm_num [maxScale])⟩

/-- C2: for every viewport state (scale within the maintained bound),
every zoom factor and every pivot screen point, `zoom` preserves the
world point under the pivot: `screenToWorld pivot` before and after the
call agree exactly, including when the requested scale is clamped. -/
theorem zoom_preserves_pivot (v : Viewport) (factor cx cy : ℚ)
    (hlo : minScale ≤ v.scale) :
    screenToWorld (zoom v factor cx cy) (cx, cy) = screenToWorld v (cx, cy) := by
  have hs : v.scale ≠ 0 := ne_of_gt (scale_pos_of_minScale_le hlo)
  have hns : clampScale (v.scale * factor) ≠ 0 :=
    ne_of_gt (scale_pos_of_minScale_le (clampScale_mem _).1)
  simp only [screenToWorld, zoom]
  rw [Prod.ext_iff]
  constructor <;> · simp only []; field_simp; ring

theorem zoom_preserves_pivot_witness :
    minScale ≤ (Viewport.mk 0.6 5 (-7)).scale ∧
      screenToWorld (zoom (Viewport.mk 0.6 5 (-7)) 10 100 50) (100, 50) =
        screenToWorld (Viewport.mk 0.6 5 (-7)) (100, 50) :=
  ⟨by norm_num [minScale],
    zoom_preserves_pivot _ _ _ _ (by norm_num [minScale])⟩

theorem applyZooms_scale_mem (calls : List (ℚ × ℚ × ℚ)) :
    ∀ v : Viewport, minScale ≤ v.scale → v.scale ≤ maxScale →
      minScale ≤ (applyZooms v calls).scale ∧
        (applyZooms v calls).scale ≤ maxScale := by
  induction calls with
  | nil => exact fun v h1 h2 => ⟨h1, h2⟩
  | cons c cs ih =>
    exact fun v h1 h2 => ih _ (clampScale_mem _).1 (clampScale_mem _).2

/-- C3: starting from any scale within `[minScale, maxScale]`
(numerically `[0.3, 3]`), after any sequence of `zoom` calls with
arbitrary factors and pivots the scale remains within that range; and
each individual `zoom` call sets the scale to the clamp of
`scale * factor` into the range (the request is clamped, not
rejected). -/
theorem zoom_scale_invariant (v : Viewport) (calls : List (ℚ × ℚ × ℚ))
    (h1 : minScale ≤ v.scale) (h2 : v.scale ≤ maxScale) :
    (minScale ≤ (applyZooms v calls).scale ∧
        (applyZooms v calls).scale ≤ maxScale) ∧
      ∀ (w : Viewport) (f cx cy : ℚ),
        (zoom w f cx cy).scale = clampScale (w.scale * f) :=
  ⟨applyZooms_scale_mem calls v h1 h2, fun _ _ _ _ => rfl⟩

theorem zoom_scale_invariant_witness :
    minScale ≤ (Viewport.mk 0.6 0 0).scale ∧
      (Viewport.mk 0.6 0 0).scale ≤ maxScale ∧
      minScale ≤
        (applyZooms (Viewport.mk 0.6 0 0) [(10, 0, 0), (0.001, 3, 4)]).scale ∧
      (applyZooms (Viewport.mk 0.6 0 0) [(10, 0, 0), (0.001, 3, 4)]).scale ≤
        maxScale :=
  ⟨by norm_num [minScale], by norm_num [maxScale],
    (zoom_scale_invariant _ _ (by norm_num [minScale])
        (by norm_num [maxScale])).1.1,
    (zoom_scale_invariant _ _ (by norm_num [minScale])
        (by norm_num [maxScale])).1.2⟩

theorem inRect_of_strictlyInRect {n : TechNode} {x y : ℚ}
    (h : strictlyInRect n x y) : inRect n x y :=
  ⟨le_of_lt h.1, le_of_lt h.2.1, le_of_lt h.2.2.1, le_of_lt h.2.2.2⟩

theorem inRect_of_onRectEdge {n : TechNode} {x y : ℚ}
    (h : onRectEdge n x y) : inRect n x y := by
  simp only [onRectEdge, inRect, nodeW, nodeH] at *
  rcases h with ⟨hx | hx, hy1, hy2⟩ | ⟨hy | hy, hx1, hx2⟩ <;>
    exact ⟨by linarith, by linarith, by linarith, by linarith⟩

theorem getNodeAt_eq_none_iff (nodes : List TechNode) (x y : ℚ) :
    getNodeAt nodes x y = none ↔ ∀ n ∈ nodes, ¬ inRect n x y := by
  induction nodes with
  | nil => simp [getNodeAt]
  | cons a rest ih =>
    by_cases ha : inRect a x y
    · simp [getNodeAt, ha]
    · simp [getNodeAt, ha, ih]

theorem getNodeAt_some_inRect (x y : ℚ) (m : TechNode) :
    ∀ nodes : List TechNode, getNodeAt nodes x y = some m →
      m ∈ nodes ∧ inRect m x y := by
  intro nodes
  induction nodes with
  | nil => intro h; simp [getNodeAt] at h
  | cons a rest ih =>
    intro h
    by_cases ha : inRect a x y
    · simp only [getNodeAt, if_pos ha, Option.some.injEq] at h
      subst h
      exact ⟨List.mem_cons_self _ _, ha⟩
    · simp only [getNodeAt, if_neg ha] at h
      obtain ⟨h1, h2⟩ := ih h
      exact ⟨List.mem_cons_of_mem _ h1, h2⟩

theorem getNodeAt_isSome_of_mem (x y : ℚ) (n : TechNode) :
    ∀ nodes : List TechNode, n ∈ nodes → inRect n x y →
      ∃ m, getNodeAt nodes x y = some m ∧ inRect m x y := by
  intro nodes
  induction nodes with
  | nil => intro h; cases h
  | cons a rest ih =>
    intro hmem hin
    by_cases ha : inRect a x y
    · exact ⟨a, by simp [getNodeAt, ha], ha⟩
    · have hr : n ∈ rest := by
        rcases List.mem_cons.mp hmem with h1 | h1
        · exact absurd (h1 ▸ hin) ha
        · exact h1
      obtain ⟨m, hm1, hm2⟩ := ih hr hin
      exact ⟨m, by simp [getNodeAt, ha, hm1], hm2⟩

theorem getNodeAt_first (x y : ℚ) :
    ∀ (pre : List TechNode) (n : TechNode) (post : List TechNode),
      (∀ m ∈ pre, ¬ inRect m x y) → inRect n x y →
        getNodeAt (pre ++ n :: post) x y = some n := by
  intro pre
  induction pre with
  | nil => intro n post _ hn; simp [getNodeAt, hn]
  | cons a rest ih =>
    intro n post hpre hn
    have ha : ¬ inRect a x y := hpre a (List.mem_cons_self _ _)
    have := ih n post (fun q hq => hpre q (List.mem_cons_of_mem _ hq)) hn
    simpa [getNodeAt, ha] using this

/-- C4: for every node list and world point, the hit tester satisfies
the three cases of the claim: a point strictly inside the rectangle of
exactly one node (and in the rectangle of no other node) yields that
node; a point
outside all rectangles yields `none`; a point inside several rectangles
yields the node that appears first in declaration order (the first
containing node not preceded by another containing node). -/
theorem getNodeAt_cases (nodes : List TechNode) (x y : ℚ) :
    (∀ n ∈ nodes, strictlyInRect n x y →
        (∀ m ∈ nodes, m ≠ n → ¬ inRect m x y) →
        getNodeAt nodes x y = some n) ∧
      ((∀ n ∈ nodes, ¬ inRect n x y) → getNodeAt nodes x y = none) ∧
      (∀ (pre : List TechNode) (n : TechNode) (post : List TechNode),
        pre ++ n :: post = nodes → inRect n x y →
        (∀ m ∈ pre, ¬ inRect m x y) → getNodeAt nodes x y = some n) := by
  refine ⟨?_, ?_, ?_⟩
  · intro n hn hstrict hothers
    obtain ⟨m, hm, hmin⟩ :=
      getNodeAt_isSome_of_mem x y n nodes hn (inRect_of_strictlyInRect hstrict)
    obtain ⟨hmmem, -⟩ := getNodeAt_some_inRect x y m nodes hm
    by_cases heq : m = n
    · rw [hm, heq]
    · exact absurd hmin (hothers m hmmem heq)
  · exact (getNodeAt_eq_none_iff nodes x y).mpr
  · intro pre n post hsplit hin hpre
    rw [← hsplit]
    exact getNodeAt_first x y pre n post hpre hin

theorem getNodeAt_cases_witness :
    scenarioNodeA ∈ [scenarioNodeA, scenarioNodeB] ∧
      strictlyInRect scenarioNodeA 10 5 ∧
      getNodeAt [scenarioNodeA, scenarioNodeB] 10 5 = some scenarioNodeA :=
  ⟨by simp, by norm_num [strictlyInRect, scenarioNodeA, nodeW, nodeH],
    (getNodeAt_cases [scenarioNodeA, scenarioNodeB] 10 5).1 scenarioNodeA
      (by simp) (by norm_num [strictlyInRect, scenarioNodeA, nodeW, nodeH])
      (by
        intro m hm hne
        rcases List.mem_cons.mp hm with h | h
        · exact absurd h hne
        · rw [List.mem_singleton.mp h]
          norm_num [inRect, scenarioNodeB, nodeW, nodeH])⟩

/-- C10: rectangle boundaries are inclusive: a world point lying exactly
on an edge of the 140 by 56 rectangle of a node is treated as inside —
the containment test of that node accepts it, and the hit tester returns some node
whose rectangle contains the point (the node itself, subject to
declaration-order tie-breaking) rather than `none`. -/
theorem getNodeAt_boundary_inclusive (nodes : List TechNode)
    (n : TechNode) (x y : ℚ) (hmem : n ∈ nodes)
    (hedge : onRectEdge n x y) :
    inRect n x y ∧
      ∃ m, getNodeAt nodes x y = some m ∧ inRect m x y :=
  ⟨inRect_of_onRectEdge hedge,
    getNodeAt_isSome_of_mem x y n nodes hmem (inRect_of_onRectEdge hedge)⟩

theorem getNodeAt_boundary_inclusive_witness :
    onRectEdge scenarioNodeA (-70) 0 ∧
      inRect scenarioNodeA (-70) 0 ∧
      ∃ m, getNodeAt [scenarioNodeA, scenarioNodeB] (-70) 0 = some m ∧
        inRect m (-70) 0 :=
  ⟨by norm_num [onRectEdge, scenarioNodeA, nodeW, nodeH],
    (getNodeAt_boundary_inclusive [scenarioNodeA, scenarioNodeB]
        scenarioNodeA (-70) 0 (by simp)
        (by norm_num [onRectEdge, scenarioNodeA, nodeW, nodeH])).1,
    (getNodeAt_boundary_inclusive [scenarioNodeA, scenarioNodeB]
        scenarioNodeA (-70) 0 (by simp)
        (by norm_num [onRectEdge, scenarioNodeA, nodeW, nodeH])).2⟩

/-- C5: for every click processed outside a drag, `handleClick` toggles
the selection by the hit-test result: hitting the currently selected
node clears the selection; hitting a different node (or hitting a node
with nothing selected) selects that node; hitting no node leaves the
whole state unchanged. -/
theorem handleClick_selection (nodes : List TechNode) (s : WidgetState)
    (sx sy : ℚ) (hdrag : s.isDragging = false) :
    (∀ n : TechNode,
        getNodeAt nodes ((sx - s.view.offsetX) / s.view.scale)
            ((sy - s.view.offsetY) / s.view.scale) = some n →
          (s.selectedNode = some n →
            (handleClick nodes s sx sy).selectedNode = none) ∧
          (s.selectedNode ≠ some n →
            (handleClick nodes s sx sy).selectedNode = some n)) ∧
      (getNodeAt nodes ((sx - s.view.offsetX) / s.view.scale)
          ((sy - s.view.offsetY) / s.view.scale) = none →
        handleClick nodes s sx sy = s) := by
  constructor
  · intro n hn
    constructor
    · intro hsel
      simp [handleClick, hdrag, hn, hsel]
    · intro hsel
      simp [handleClick, hdrag, hn, hsel]
  · intro hn
    simp [handleClick, hdrag, hn]

theorem handleClick_selection_witness :
    sampleState.isDragging = false ∧
      getNodeAt [scenarioNodeA, scenarioNodeB]
          ((10 - sampleState.view.offsetX) / sampleState.view.scale)
          ((5 - sampleState.view.offsetY) / sampleState.view.scale) =
        some scenarioNodeA ∧
      sampleState.selectedNode ≠ some scenarioNodeA ∧
      (handleClick [scenarioNodeA, scenarioNodeB] sampleState 10 5).selectedNode
        = some scenarioNodeA :=
  ⟨rfl,
    by norm_num [getNodeAt, inRect, scenarioNodeA, scenarioNodeB, nodeW,
      nodeH, sampleState],
    by simp [sampleState],
    ((handleClick_selection [scenarioNodeA, scenarioNodeB] sampleState 10 5
          rfl).1 scenarioNodeA
        (by norm_num [getNodeAt, inRect, scenarioNodeA, scenarioNodeB, nodeW,
          nodeH, sampleState])).2
      (by simp [sampleState])⟩

/-- C9: from every widget state — mid-drag and with any node selected
included — `resetView` restores the scale and both offset components to
their configured defaults and sets the selection to `none`. -/
theorem resetView_restores_defaults (s : WidgetState) :
    (resetView s).view.scale = defaultScale ∧
      (resetView s).view.offsetX = 0 ∧
      (resetView s).view.offsetY = 0 ∧
      (resetView s).selectedNode = none :=
  ⟨rfl, rfl, rfl, rfl⟩

/-- C8 counterexample: `resetView` is an operation that changes the
selection to `none` (here from node A selected, details panel revealed),
yet the detail surface stays revealed afterwards — the claim that every
operation clearing the selection hides the detail surface is false on
this input. -/
theorem resetView_leaves_details_visible :
    selectedState.selectedNode = some scenarioNodeA ∧
      selectedState.detailsVisible = true ∧
      (resetView selectedState).selectedNode = none ∧
      (resetView selectedState).detailsVisible = true :=
  ⟨rfl, rfl, rfl, rfl⟩

/-- C8 (amended): when a click (outside a drag) changes the selection to
a node, the detail surface is revealed, its title is set to the display
name of that node and its description entries are rendered joined by
line breaks; when a click on the already-selected node changes the
selection to none, the detail surface is hidden; `resetView` also
changes the selection to none but leaves the detail-surface visibility
unchanged. -/
theorem selection_details_binding (nodes : List TechNode) (s : WidgetState)
    (sx sy : ℚ) (n : TechNode) (hdrag : s.isDragging = false)
    (hhit : getNodeAt nodes ((sx - s.view.offsetX) / s.view.scale)
        ((sy - s.view.offsetY) / s.view.scale) = some n) :
    (s.selectedNode ≠ some n →
        (handleClick nodes s sx sy).detailsVisible = true ∧
          (handleClick nodes s sx sy).detailsTitle = n.name ∧
          (handleClick nodes s sx sy).detailsDesc =
            renderDesc n.description) ∧
      (s.selectedNode = some n →
        (handleClick nodes s sx sy).detailsVisible = false) ∧
      ∀ t : WidgetState,
        (resetView t).selectedNode = none ∧
          (resetView t).detailsVisible = t.detailsVisible := by
  refine ⟨?_, ?_, fun t => ⟨rfl, rfl⟩⟩
  · intro hsel
    refine ⟨?_, ?_, ?_⟩ <;> simp [handleClick, hdrag, hhit, hsel]
  · intro hsel
    simp [handleClick, hdrag, hhit, hsel]

theorem selection_details_binding_witness :
    sampleState.isDragging = false ∧
      getNodeAt [scenarioNodeA, scenarioNodeB]
          ((10 - sampleState.view.offsetX) / sampleState.view.scale)
          ((5 - sampleState.view.offsetY) / sampleState.view.scale) =
        some scenarioNodeA ∧
      sampleState.selectedNode ≠ some scenarioNodeA ∧
      (handleClick [scenarioNodeA, scenarioNodeB] sampleState
            10 5).detailsVisible = true ∧
      (handleClick [scenarioNodeA, scenarioNodeB] sampleState
          10 5).detailsTitle = scenarioNodeA.name ∧
      (handleClick [scenarioNodeA, scenarioNodeB] sampleState
          10 5).detailsDesc = renderDesc scenarioNodeA.description :=
  ⟨rfl,
    by norm_num [getNodeAt, inRect, scenarioNodeA, scenarioNodeB, nodeW,
      nodeH, sampleState],
    by simp [sampleState],
    (selection_details_binding [scenarioNodeA, scenarioNodeB] sampleState 10 5
        scenarioNodeA rfl
        (by norm_num [getNodeAt, inRect, scenarioNodeA, scenarioNodeB, nodeW,
          nodeH, sampleState])).1
      (by simp [sampleState])⟩

theorem mem_rectConnSegments {a b : TechNode} {s : Segment}
    (h : s ∈ rectConnSegments a b) : segKey s = connKey a.id b.id := by
  simp only [rectConnSegments] at h
  split at h
  · rw [List.mem_singleton.mp h]
    rfl
  · simp at h

theorem pairwise_rectConnSegments (a b : TechNode) :
    List.Pairwise (fun u v => segKey u ≠ segKey v) (rectConnSegments a b) := by
  simp only [rectConnSegments]
  split
  · simp
  · simp

theorem drawNodeConns_inv (allNodes : List TechNode) (node : TechNode) :
    ∀ (conns : List String) (seen : List (String × String)),
      (∀ p ∈ seen, p ∈ (drawNodeConns allNodes node conns seen).2) ∧
        (∀ s ∈ (drawNodeConns allNodes node conns seen).1,
          segKey s ∉ seen ∧
            segKey s ∈ (drawNodeConns allNodes node conns seen).2) ∧
        List.Pairwise (fun u v => segKey u ≠ segKey v)
          (drawNodeConns allNodes node conns seen).1 := by
  intro conns
  induction conns with
  | nil =>
    intro seen
    simp [drawNodeConns]
  | cons c rest ih =>
    intro seen
    cases hfind : allNodes.find? (fun n => n.id == c) with
    | none =>
      simpa only [drawNodeConns, hfind] using ih seen
    | some target =>
      by_cases hkey : connKey node.id target.id ∈ seen
      · simpa only [drawNodeConns, hfind, if_pos hkey] using ih seen
      · obtain ⟨A, B, C⟩ := ih (connKey node.id target.id :: seen)
        have hres : drawNodeConns allNodes node (c :: rest) seen =
            (rectConnSegments node target ++
                (drawNodeConns allNodes node rest
                  (connKey node.id target.id :: seen)).1,
              (drawNodeConns allNodes node rest
                (connKey node.id target.id :: seen)).2) := by
          simp only [drawNodeConns, hfind]
          rw [if_neg hkey]
        rw [hres]
        refine ⟨?_, ?_, ?_⟩
        · exact fun p hp => A p (List.mem_cons_of_mem _ hp)
        · intro s hs
          rcases List.mem_append.mp hs with h1 | h1
          · rw [mem_rectConnSegments h1]
            exact ⟨hkey, A _ (List.mem_cons_self _ _)⟩
          · obtain ⟨hnotin, hin⟩ := B s h1
            exact ⟨fun hc => hnotin (List.mem_cons_of_mem _ hc), hin⟩
        · rw [List.pairwise_append]
          refine ⟨pairwise_rectConnSegments node target, C, ?_⟩
          intro u hu v hv
          rw [mem_rectConnSegments hu]
          intro heq
          exact (B v hv).1 (by rw [← heq]; exact List.mem_cons_self _ _)

theorem drawAllConns_inv (allNodes : List TechNode) :
    ∀ (nodes : List TechNode) (seen : List (String × String)),
      (∀ p ∈ seen, p ∈ (drawAllConns allNodes nodes seen).2) ∧
        (∀ s ∈ (drawAllConns allNodes nodes seen).1,
          segKey s ∉ seen ∧
            segKey s ∈ (drawAllConns allNodes nodes seen).2) ∧
        List.Pairwise (fun u v => segKey u ≠ segKey v)
          (drawAllConns allNodes nodes seen).1 := by
  intro nodes
  induction nodes with
  | nil =>
    intro seen
    simp [drawAllConns]
  | cons n rest ih =>
    intro seen
    obtain ⟨A1, B1, C1⟩ := drawNodeConns_inv allNodes n n.connections seen
    obtain ⟨A2, B2, C2⟩ :=
      ih (drawNodeConns allNodes n n.connections seen).2
    have hres : drawAllConns allNodes (n :: rest) seen =
        ((drawNodeConns allNodes n n.connections seen).1 ++
            (drawAllConns allNodes rest
              (drawNodeConns allNodes n n.connections seen).2).1,
          (drawAllConns allNodes rest
            (drawNodeConns allNodes n n.connections seen).2).2) := rfl
    rw [hres]
    refine ⟨?_, ?_, ?_⟩
    · exact fun p hp => A2 p (A1 p hp)
    · intro s hs
      rcases List.mem_append.mp hs with h1 | h1
      · obtain ⟨hn, hi⟩ := B1 s h1
        exact ⟨hn, A2 _ hi⟩
      · obtain ⟨hn, hi⟩ := B2 s h1
        exact ⟨fun hc => hn (A1 _ hc), hi⟩
    · rw [List.pairwise_append]
      refine ⟨C1, C2, ?_⟩
      intro u hu v hv heq
      exact (B2 v hv).1 (heq ▸ (B1 u hu).2)

theorem connKey_A_B : connKey "A" "B" = ("A", "B") := by
  unfold connKey
  rw [if_pos (by simp; decide)]

theorem connKey_B_A : connKey "B" "A" = ("A", "B") := by
  unfold connKey
  rw [if_neg (by simp; decide)]

theorem connectionSegments_scenario :
    connectionSegments [scenarioNodeA, scenarioNodeB] =
      [{ sourceId := "A", targetId := "B", x1 := 0, y1 := 0,
          x2 := 200, y2 := 0 }] := by
  norm_num [connectionSegments, drawAllConns, drawNodeConns,
    rectConnSegments, connKey_A_B, connKey_B_A, scenarioNodeA,
    scenarioNodeB, List.find?,
    show (("A" : String) == "B") = false from by decide,
    show (("B" : String) == "B") = true from by decide,
    show (("A" : String) == "A") = true from by decide,
    show (("B" : String) == "A") = false from by decide]

/-- C6: one full render issues each unordered pair of connected nodes at
most once — the keys of the issued segments are pairwise distinct for
every graph model — and in the concrete scenario of nodes A at `(0, 0)`
and B at `(200, 0)` listing each other as connections, exactly one
segment is issued for the pair, running from the center of A to the
center of B with the arrowhead end (`x2`, `y2`) at the center of B. -/
theorem connections_drawn_once (nodes : List TechNode) :
    List.Pairwise (fun u v => segKey u ≠ segKey v)
        (connectionSegments nodes) ∧
      connectionSegments [scenarioNodeA, scenarioNodeB] =
        [{ sourceId := "A", targetId := "B", x1 := 0, y1 := 0,
            x2 := 200, y2 := 0 }] :=
  ⟨(drawAllConns_inv nodes nodes []).2.2, connectionSegments_scenario⟩

/-- C7: a connection id that does not resolve to an existing node is
silently skipped by the connection pass: removing the dangling entry
from the connection list of the node changes neither the issued segments nor
the seen-keys set, so no edge is drawn for it and the rest of the
render is unaffected (the pass is a total function — no error is
possible). -/
theorem dangling_connection_skipped (allNodes : List TechNode)
    (node : TechNode) (c : String)
    (hdangling : allNodes.find? (fun n => n.id == c) = none)
    (pre post : List String) (seen : List (String × String)) :
    drawNodeConns allNodes node (pre ++ c :: post) seen =
      drawNodeConns allNodes node (pre ++ post) seen := by
  induction pre generalizing seen with
  | nil =>
    simp only [List.nil_append, drawNodeConns, hdangling]
  | cons d rest ih =>
    cases hfind : allNodes.find? (fun n => n.id == d) with
    | none =>
      simp only [List.cons_append, drawNodeConns, hfind]
      exact ih seen
    | some target =>
      by_cases hkey : connKey node.id target.id ∈ seen
      · simp only [List.cons_append, drawNodeConns, hfind, if_pos hkey]
        exact ih seen
      · simp only [List.cons_append, drawNodeConns, hfind, if_neg hkey,
          List.append_eq]
        rw [ih (connKey node.id target.id :: seen)]

theorem dangling_connection_skipped_witness :
    [scenarioNodeA].find? (fun n => n.id == "ghost") = none ∧
      drawNodeConns [scenarioNodeA] scenarioNodeA ["ghost"] [] =
        drawNodeConns [scenarioNodeA] scenarioNodeA [] [] :=
  ⟨by simp [scenarioNodeA],
    dangling_connection_skipped [scenarioNodeA] scenarioNodeA "ghost"
      (by simp [scenarioNodeA]) [] [] []⟩

end TechCanvas
